import Mathlib

set_option maxRecDepth 100000

/-!
A shallow embedding of `src/sudoku/sudoku.py` (classes `_Cell`, `_Region`,
`_Row`, `_Column`, `Board`) together with theorems checking the
natural-language specification against it.

Conventions of the embedding:
* Python digit indices are 1-based (`__candidates[1..9]`, regions `1..9`,
  cells `1..9` inside a region).  Internally we store candidate flags as a
  function `Fin 9 → Bool` (flag `i` is the Python flag for digit `i+1`) and
  address the 81 cells by `Pos = Fin 9 × Fin 9`, the 0-based pair
  (region index, cell index inside the region).  The public `__getitem__`
  interfaces keep their Python 1-based `int` index, modelled as `Int`.
* Python mutates cells in place; here every operation returns the new board.
  The three views (regions, rows, columns) are position tables into the one
  cell store, which models the reference sharing of the source.
* A Python exception is modelled by an `Option Err` component next to the
  board state: the state component is the state of the objects at the moment
  the exception propagates (Python does not roll back mutations).
-/

namespace Sudoku

/-- The Python exceptions that the source can raise while operating on a
board: `ValueError` from the `_Cell.value` setter, `AttributeError` from
accessing `.value` on `None`. -/
inductive Err where
  | valueError
  | attributeError
deriving DecidableEq, Repr

/-- Truthiness of a Python `Optional[bool]`: `None` and `False` are falsy. -/
def otruthy : Option Bool → Bool
  | some true => true
  | _ => false

/-- One `_Cell`: the `__candidates` list (its ten entries are `None` at
index 0 and the flags for digits 1..9, stored here as `cands i` = flag of
digit `i+1`) and the `__value` field (0 = unresolved). -/
structure Cell where
  cands : Fin 9 → Bool
  value : Nat
deriving DecidableEq

/-- `_Cell.__init__`: all nine candidates open, value 0. -/
def Cell.init : Cell := ⟨fun _ => true, 0⟩

/-- `_Cell.__getitem__(index)`: the stored flag for `0 < index <= 9`,
`None` otherwise. -/
def Cell.getItem (c : Cell) (i : Int) : Option Bool :=
  if h : 0 < i ∧ i ≤ 9 then some (c.cands ⟨i.toNat - 1, by omega⟩) else none

/-- `_Cell.__setitem__(index, value)`: updates the flag for
`0 < index <= 9`, silently does nothing otherwise. -/
def Cell.setItem (c : Cell) (i : Int) (b : Bool) : Cell :=
  if h : 0 < i ∧ i ≤ 9 then
    { c with cands := Function.update c.cands ⟨i.toNat - 1, by omega⟩ b }
  else c

/-- The `_Cell.candidates` property: the tuple of digits `1..9` whose flag
is truthy, via `self[candidate]`. -/
def Cell.candidatesList (c : Cell) : List Nat :=
  (List.range' 1 9).filter fun d => otruthy (c.getItem d)

/-- `_Cell.__eq__`: two cells compare equal iff their `candidates` tuples
are equal (the resolved values are not compared). -/
def Cell.pyEq (c1 c2 : Cell) : Bool :=
  c1.candidatesList = c2.candidatesList

/-- The `_Cell.value` setter: raises `ValueError` unless `1 < value <= 9`
(note the strict `1 <`); on success stores the value and rewrites the
candidate list to all-`False` except index `value`. -/
def Cell.setValue (c : Cell) (v : Nat) : Cell × Option Err :=
  if 1 < v ∧ v ≤ 9 then
    ({ cands := fun i => i.val + 1 = v, value := v }, none)
  else (c, some .valueError)

/-- `_Cell.is_solved()`: `value != 0`. -/
def Cell.isSolved (c : Cell) : Bool := c.value ≠ 0

/-- A cell position: 0-based (region index, cell index within the region),
i.e. Python's `board[r][c]` is position `(r-1, c-1)`. -/
abbrev Pos := Fin 9 × Fin 9

/-- The `Board`: owner of the 81 cells.  The Python object keeps nine
`_Region`s of nine `_Cell`s; the store is indexed by `Pos`. -/
structure Board where
  cells : Pos → Cell
deriving DecidableEq

/-- `Board.__init__` before any parsing: 81 fresh cells. -/
def Board.init : Board := ⟨fun _ => Cell.init⟩

def Board.cellAt (b : Board) (p : Pos) : Cell := b.cells p

/-- Replacing the cell at one position (Python mutates the shared `_Cell`
object in place; every view sees the change because the views are position
tables into this one store). -/
def Board.setCellAt (b : Board) (p : Pos) (c : Cell) : Board :=
  ⟨Function.update b.cells p c⟩

/-- `Board.__getitem__(i)`: region `i` for `0 < i <= 9`, `None` otherwise.
A region is its function from 0-based cell index to cell. -/
def Board.getItem (b : Board) (i : Int) : Option (Fin 9 → Cell) :=
  if h : 0 < i ∧ i ≤ 9 then
    some (fun j => b.cells (⟨i.toNat - 1, by omega⟩, j))
  else none

/-- The member positions of region `r` (`_Region.cells`). -/
def regionPositions (r : Fin 9) : List Pos :=
  (List.finRange 9).map fun j => (r, j)

/-- The member positions of the rows, transcribed from the table built in
`Board.__init__` (`self.__rows`): row `i` lists `self[r][c]` as `(r-1, c-1)`. -/
def rowPositions (i : Fin 9) : List Pos :=
  match i with
  | 0 => [(0,0),(0,1),(0,2),(1,0),(1,1),(1,2),(2,0),(2,1),(2,2)]
  | 1 => [(0,3),(0,4),(0,5),(1,3),(1,4),(1,5),(2,3),(2,4),(2,5)]
  | 2 => [(0,6),(0,7),(0,8),(1,6),(1,7),(1,8),(2,6),(2,7),(2,8)]
  | 3 => [(3,0),(3,1),(3,2),(4,0),(4,1),(4,2),(5,0),(5,1),(5,2)]
  | 4 => [(3,3),(3,4),(3,5),(4,3),(4,4),(4,5),(5,3),(5,4),(5,5)]
  | 5 => [(3,6),(3,7),(3,8),(4,6),(4,7),(4,8),(5,6),(5,7),(5,8)]
  | 6 => [(6,0),(6,1),(6,2),(7,0),(7,1),(7,2),(8,0),(8,1),(8,2)]
  | 7 => [(6,3),(6,4),(6,5),(7,3),(7,4),(7,5),(8,3),(8,4),(8,5)]
  | 8 => [(6,6),(6,7),(6,8),(7,6),(7,7),(7,8),(8,6),(8,7),(8,8)]

/-- The member positions of the columns, transcribed from the table built in
`Board.__init__` (`self.__columns`). -/
def colPositions (j : Fin 9) : List Pos :=
  match j with
  | 0 => [(0,0),(0,3),(0,6),(3,0),(3,3),(3,6),(6,0),(6,3),(6,6)]
  | 1 => [(0,1),(0,4),(0,7),(3,1),(3,4),(3,7),(6,1),(6,4),(6,7)]
  | 2 => [(0,2),(0,5),(0,8),(3,2),(3,5),(3,8),(6,2),(6,5),(6,8)]
  | 3 => [(1,0),(1,3),(1,6),(4,0),(4,3),(4,6),(7,0),(7,3),(7,6)]
  | 4 => [(1,1),(1,4),(1,7),(4,1),(4,4),(4,7),(7,1),(7,4),(7,7)]
  | 5 => [(1,2),(1,5),(1,8),(4,2),(4,5),(4,8),(7,2),(7,5),(7,8)]
  | 6 => [(2,0),(2,3),(2,6),(5,0),(5,3),(5,6),(8,0),(8,3),(8,6)]
  | 7 => [(2,1),(2,4),(2,7),(5,1),(5,4),(5,7),(8,1),(8,4),(8,7)]
  | 8 => [(2,2),(2,5),(2,8),(5,2),(5,5),(5,8),(8,2),(8,5),(8,8)]

def regionGroups : List (List Pos) := (List.finRange 9).map regionPositions
def rowGroups : List (List Pos) := (List.finRange 9).map rowPositions
def colGroups : List (List Pos) := (List.finRange 9).map colPositions
def allGroups : List (List Pos) := regionGroups ++ rowGroups ++ colGroups

/-- `is_solved()` of a region / of `all([cell.is_solved() for cell in row])`:
every member cell resolved. -/
def Board.groupSolved (b : Board) (g : List Pos) : Bool :=
  g.all fun p => (b.cellAt p).isSolved

/-- `Board.is_solved()`: every region solved. -/
def Board.isSolved (b : Board) : Bool :=
  (List.finRange 9).all fun r => b.groupSolved (regionPositions r)

/-- The body of the elimination inner loop of `Board.update`:
`if not cell2.value and cell2[cell1.value]: cell2[cell1.value] = False`. -/
def elimInner (p1 : Pos) (b : Board) (p2 : Pos) : Board :=
  if (b.cellAt p2).value = 0 ∧
      otruthy ((b.cellAt p2).getItem ((b.cellAt p1).value : Int)) then
    b.setCellAt p2 ((b.cellAt p2).setItem ((b.cellAt p1).value : Int) false)
  else b

/-- One iteration of the elimination outer loop:
`if cell1.value: for cell2 in g: ...`. -/
def elimOuter (g : List Pos) (b : Board) (p1 : Pos) : Board :=
  if (b.cellAt p1).value ≠ 0 then g.foldl (elimInner p1) b else b

/-- The elimination loops over one group:
`for cell1 in g: if cell1.value: for cell2 in g: ...`. -/
def elimGroup (g : List Pos) (b : Board) : Board :=
  g.foldl (elimOuter g) b

/-- One group of an elimination pass, with the `if <group solved>: continue`
guard. -/
def elimPhaseStep (b : Board) (g : List Pos) : Board :=
  if b.groupSolved g then b else elimGroup g b

/-- One elimination pass of `Board.update` over a family of groups. -/
def elimPhase (gs : List (List Pos)) (b : Board) : Board :=
  gs.foldl elimPhaseStep b

/-- The `# Set value if only 1 candidate` pass of `Board.update`.  It runs
`for cell in region` on a `_Region` object; Python's iteration protocol
starts at index 0 and `_Region.__getitem__(0)` returns `None`, so on the
first region that is not skipped by the `is_solved` guard the loop binds
`cell = None` and `cell.value` raises `AttributeError` before any cell is
examined.  If every region is solved, every region is skipped by `continue`
and the pass finishes with no change. -/
def nakedSinglePhase (b : Board) : Board × Option Err :=
  if (List.finRange 9).all (fun r => b.groupSolved (regionPositions r)) then
    (b, none)
  else (b, some .attributeError)

/-- The `# Singularity in region` pass of `Board.update`.  It also runs
`for cell1 in region` on a `_Region` object, so exactly as in
`nakedSinglePhase` the first region not skipped by the `is_solved` guard
raises `AttributeError` at index 0; if every region is solved the pass is a
no-op. -/
def regionSingularityPhase (b : Board) : Board × Option Err :=
  if (List.finRange 9).all (fun r => b.groupSolved (regionPositions r)) then
    (b, none)
  else (b, some .attributeError)

/-- The singularity scan
`for cell2 in g: if cell1 != cell2 and not cell2.value and cell2[candidate]`:
returns `true` when no such blocking cell exists (`singularity` stays `True`).
`!=` is the negation of `_Cell.__eq__`, i.e. candidate-tuple inequality. -/
def singularityHolds (b : Board) (g : List Pos) (p1 : Pos) (cand : Nat) : Bool :=
  !(g.any fun p2 =>
    !(b.cellAt p1).pyEq (b.cellAt p2) &&
    (b.cellAt p2).value = 0 &&
    otruthy ((b.cellAt p2).getItem cand))

/-- `cell.value = v` on the cell at `p`: on success the board is updated, a
`ValueError` leaves the board unchanged. -/
def trySetValue (b : Board) (p : Pos) (v : Nat) : Board × Option Err :=
  match (b.cellAt p).setValue v with
  | (c, none) => (b.setCellAt p c, none)
  | (_, some e) => (b, some e)

/-- One candidate of the singularity loop:
`if singularity: cell1.value = candidate` (the assignment can raise). -/
def singStep (g : List Pos) (p1 : Pos) (acc : Board × Option Err) (cand : Nat) :
    Board × Option Err :=
  match acc with
  | (b, some e) => (b, some e)
  | (b, none) =>
    if singularityHolds b g p1 cand then trySetValue b p1 cand else (b, none)

/-- The singularity loops over one group (rows/columns variant, where the
group is a plain list): `for cell1 in g: if not cell1.value:
for candidate in cell1.candidates: ...`.  The candidate tuple is computed
once when `cell1`'s iteration starts, as in the source. -/
def singGroup (g : List Pos) (b : Board) : Board × Option Err :=
  g.foldl (fun acc p1 =>
    match acc with
    | (b, some e) => (b, some e)
    | (b, none) =>
      if (b.cellAt p1).value = 0 then
        ((b.cellAt p1).candidatesList).foldl (singStep g p1) (b, none)
      else (b, none)) (b, none)

/-- One group of a singularity pass, with the all-cells-solved `continue`
guard; an exception raised earlier aborts the rest of the pass. -/
def singPhaseStep (acc : Board × Option Err) (g : List Pos) : Board × Option Err :=
  match acc with
  | (b, some e) => (b, some e)
  | (b, none) => if b.groupSolved g then (b, none) else singGroup g b

/-- The `# Singularity in rows` / `# Singularity in columns` passes of
`Board.update`. -/
def singularityPhase (gs : List (List Pos)) (b : Board) : Board × Option Err :=
  gs.foldl singPhaseStep (b, none)

/-- Phases 4-7 of `Board.update()`: the naked-single pass, then the three
singularity passes, propagating the first exception with the board state at
the moment it is raised. -/
def latePhases (b : Board) : Board × Option Err :=
  match nakedSinglePhase b with
  | (b, some e) => (b, some e)
  | (b, none) =>
    match regionSingularityPhase b with
    | (b, some e) => (b, some e)
    | (b, none) =>
      match singularityPhase rowGroups b with
      | (b, some e) => (b, some e)
      | (b, none) => singularityPhase colGroups b

/-- `Board.update()` (the spec's `step()`): the three elimination passes
(regions, rows, columns), then the naked-single and singularity passes. -/
def Board.update (b : Board) : Board × Option Err :=
  latePhases (elimPhase colGroups (elimPhase rowGroups (elimPhase regionGroups b)))

/-- `Board.undo()`: the body of the method is `pass`; it changes nothing
and returns `None`. -/
def Board.undo (b : Board) : Board := b

/-- One clue assignment of `Board.parse`: `self[i][j].value = value`,
addressed here 0-based.  A `ValueError` from the setter leaves the board
unchanged and propagates. -/
def Board.loadClue (b : Board) (p : Pos) (v : Nat) : Board × Option Err :=
  trySetValue b p v

end Sudoku

namespace Sudoku

/-- Modelled from the spec: the source file under `src/` declares no
`validate()`; the spec describes it as "for every Group (Region, Row,
Column), collect Resolved values among members and fail (return false /
`ConstraintViolation`) if any value repeats; returns true only if no Group
has a duplicate".  `resolvedValues` collects the resolved values of a
group's members. -/
def resolvedValues (b : Board) (g : List Pos) : List Nat :=
  (g.map fun p => (b.cellAt p).value).filter fun v => v ≠ 0

/-- Modelled from the spec: `validate()` returns true iff no group has a
repeated resolved value. -/
def Board.validate (b : Board) : Bool :=
  allGroups.all fun g => (resolvedValues b g).Nodup

/-- A cell resolved to `v` as produced by the `_Cell.value` setter. -/
def resolvedCell (v : Nat) : Cell := ⟨fun i => i.val + 1 = v, v⟩

/-- A board with the single clue 5 at position `(0,0)`. -/
def oneClueBoard : Board := (Board.init.loadClue (0, 0) 5).1

/-! ### Concrete boards used as test inputs and counterexamples -/

/-- An unresolved cell whose open candidates are exactly {4, 5}. -/
def pairCell : Cell := ⟨fun i => i.val = 3 ∨ i.val = 4, 0⟩

/-- A board whose first row holds two distinct unresolved cells with the
identical candidate set {4, 5} at positions `(0,0)` and `(0,1)`, the other
seven cells of the row resolved. -/
def cexBoard : Board :=
  ⟨fun p =>
    if p = (0, 0) ∨ p = (0, 1) then pairCell
    else if p = (0, 2) then resolvedCell 2
    else if p = (1, 0) then resolvedCell 3
    else if p = (1, 1) then resolvedCell 6
    else if p = (1, 2) then resolvedCell 7
    else if p = (2, 0) then resolvedCell 8
    else if p = (2, 1) ∨ p = (2, 2) then resolvedCell 9
    else Cell.init⟩

/-- A board loaded with two identical clues (5) in the same row: positions
`(0,0)` and `(0,1)` both lie in row 1. -/
def twoClueBoard : Board :=
  ((Board.init.loadClue (0, 0) 5).1.loadClue (0, 1) 5).1

/-- `n` successive `update()` calls (following the board state through both
normal and raising returns). -/
def updateIter : Nat → Board → Board
  | 0, b => b
  | n + 1, b => updateIter n (Board.update b).1

/-- `otruthy ((b.cellAt p).getItem v) = false`: digit `v` is not an open
candidate of the cell at `p` (also true when `v` is out of range, where
`__getitem__` returns `None`). -/
def flagFalse (b : Board) (p : Pos) (v : Nat) : Prop :=
  otruthy ((b.cellAt p).getItem (v : Int)) = false

/-- What an elimination pass can do to the board: values are unchanged,
candidate flags only ever go from `true` to `false`, and resolved cells are
untouched. -/
def ElimMono (b b' : Board) : Prop :=
  (∀ p, (b'.cellAt p).value = (b.cellAt p).value) ∧
  (∀ p k, (b'.cellAt p).cands k = true → (b.cellAt p).cands k = true) ∧
  (∀ p, (b.cellAt p).value ≠ 0 → b'.cellAt p = b.cellAt p)

/-- Every resolved cell of the board is in the exact state the `_Cell.value`
setter produces: a digit `2..9` with the singleton candidate flag set. -/
def Inv (b : Board) : Prop :=
  ∀ p, (b.cellAt p).value ≠ 0 →
    b.cellAt p = resolvedCell (b.cellAt p).value ∧
    1 < (b.cellAt p).value ∧ (b.cellAt p).value ≤ 9

/-- The board states reachable through the source's operations:
construction, clue loading (`parse`), `update` and `undo`. -/
inductive Reachable : Board → Prop where
  | init : Reachable Board.init
  | clue {b : Board} (p : Pos) (v : Nat) :
      Reachable b → Reachable (b.loadClue p v).1
  | step {b : Board} : Reachable b → Reachable (Board.update b).1
  | undo {b : Board} : Reachable b → Reachable b.undo

/-! ### Basic lemmas about cells and the board store -/

lemma otruthy_some (x : Bool) : otruthy (some x) = x := by cases x <;> rfl

lemma cellAt_setCellAt (b : Board) (p : Pos) (c : Cell) (q : Pos) :
    (b.setCellAt p c).cellAt q = if q = p then c else b.cellAt q := by
  simp [Board.setCellAt, Board.cellAt, Function.update_apply]

lemma setItem_value (c : Cell) (i : Int) (x : Bool) :
    (c.setItem i x).value = c.value := by
  unfold Cell.setItem; split <;> rfl

lemma setItem_cands_le (c : Cell) (i : Int) (k : Fin 9)
    (h : (c.setItem i false).cands k = true) : c.cands k = true := by
  unfold Cell.setItem at h
  split at h
  · simp only [Function.update_apply] at h
    split at h
    · exact absurd h (by simp)
    · exact h
  · exact h

lemma groupSolved_iff (b : Board) (g : List Pos) :
    b.groupSolved g = true ↔ ∀ p ∈ g, (b.cellAt p).value ≠ 0 := by
  simp [Board.groupSolved, Cell.isSolved, List.all_eq_true]

/-! ### Monotonicity of the elimination passes

The elimination loops never change a cell's resolved value, never turn a
candidate flag back on, and never touch a resolved cell. -/

lemma elimMono_refl (b : Board) : ElimMono b b :=
  ⟨fun _ => rfl, fun _ _ h => h, fun _ _ => rfl⟩

lemma ElimMono.trans {b1 b2 b3 : Board} (h12 : ElimMono b1 b2)
    (h23 : ElimMono b2 b3) : ElimMono b1 b3 := by
  obtain ⟨v12, c12, r12⟩ := h12
  obtain ⟨v23, c23, r23⟩ := h23
  refine ⟨fun p => (v23 p).trans (v12 p), fun p k h => c12 p k (c23 p k h), ?_⟩
  intro p hp
  have h2 := r12 p hp
  have : (b2.cellAt p).value ≠ 0 := by rw [h2]; exact hp
  rw [r23 p this, h2]

lemma flagFalse_mono {b b' : Board} (h : ElimMono b b') {p : Pos} {v : Nat}
    (hf : flagFalse b p v) : flagFalse b' p v := by
  unfold flagFalse Cell.getItem at hf ⊢
  by_cases hv : 0 < (v : Int) ∧ (v : Int) ≤ 9
  · rw [dif_pos hv] at hf ⊢
    rw [otruthy_some] at hf ⊢
    exact Bool.eq_false_iff.mpr fun htrue =>
      Bool.eq_false_iff.mp hf (h.2.1 p _ htrue)
  · rw [dif_neg hv]; rfl

lemma elimInner_mono (p1 : Pos) (b : Board) (p2 : Pos) :
    ElimMono b (elimInner p1 b p2) := by
  unfold elimInner
  split
  · rename_i hcond
    refine ⟨fun q => ?_, fun q k h => ?_, fun q hq => ?_⟩
    · rw [cellAt_setCellAt]
      split
      · rename_i hqp; rw [hqp, setItem_value]
      · rfl
    · rw [cellAt_setCellAt] at h
      split at h
      · rename_i hqp; rw [hqp]; exact setItem_cands_le _ _ _ h
      · exact h
    · rw [cellAt_setCellAt]
      split
      · rename_i hqp
        exact absurd (hqp ▸ hq) (by simpa using hcond.1)
      · rfl
  · exact elimMono_refl b

lemma foldl_elimMono {α : Type} (f : Board → α → Board)
    (hf : ∀ b a, ElimMono b (f b a)) :
    ∀ (l : List α) (b : Board), ElimMono b (l.foldl f b)
  | [], _ => elimMono_refl _
  | a :: l, b => (hf b a).trans (foldl_elimMono f hf l (f b a))

lemma elimOuter_mono (g : List Pos) (b : Board) (p1 : Pos) :
    ElimMono b (elimOuter g b p1) := by
  unfold elimOuter
  split
  · exact foldl_elimMono _ (elimInner_mono p1) g b
  · exact elimMono_refl b

lemma elimGroup_mono (g : List Pos) (b : Board) : ElimMono b (elimGroup g b) :=
  foldl_elimMono _ (elimOuter_mono g) g b

lemma elimPhaseStep_mono (b : Board) (g : List Pos) :
    ElimMono b (elimPhaseStep b g) := by
  unfold elimPhaseStep
  split
  · exact elimMono_refl b
  · exact elimGroup_mono g b

lemma elimPhase_mono (gs : List (List Pos)) (b : Board) :
    ElimMono b (elimPhase gs b) :=
  foldl_elimMono _ elimPhaseStep_mono gs b

/-! ### The elimination passes establish the absence of resolved values -/

lemma setItem_getItem_false (c : Cell) (i : Int) (h : 0 < i ∧ i ≤ 9) :
    otruthy ((c.setItem i false).getItem i) = false := by
  simp only [Cell.setItem, Cell.getItem, dif_pos h]
  rw [Function.update_same, otruthy_some]

lemma elimInner_clears (p1 : Pos) (b : Board) (p2 : Pos)
    (h0 : (b.cellAt p2).value = 0) :
    flagFalse (elimInner p1 b p2) p2 (b.cellAt p1).value := by
  unfold flagFalse elimInner
  split
  · rename_i hcond
    rw [cellAt_setCellAt, if_pos rfl]
    -- the guard's truthiness forces the digit into range
    have hrange : 0 < ((b.cellAt p1).value : Int) ∧ ((b.cellAt p1).value : Int) ≤ 9 := by
      by_contra hout
      have : (b.cellAt p2).getItem ((b.cellAt p1).value : Int) = none := by
        unfold Cell.getItem; exact dif_neg hout
      rw [this] at hcond
      exact absurd hcond.2 (by simp [otruthy])
    exact setItem_getItem_false _ _ hrange
  · rename_i hcond
    rw [not_and] at hcond
    exact Bool.eq_false_iff.mpr (hcond h0)

lemma innerFold_clears (p1 : Pos) (v : Nat) :
    ∀ (l : List Pos) (b : Board), (b.cellAt p1).value = v →
      ∀ p2 ∈ l, (b.cellAt p2).value = 0 →
        flagFalse (l.foldl (elimInner p1) b) p2 v
  | [], _, _, p2, hmem, _ => absurd hmem (List.not_mem_nil p2)
  | a :: l, b, hv, p2, hmem, h0 => by
    rw [List.foldl_cons]
    rcases List.mem_cons.mp hmem with hpa | hpl
    · subst hpa
      have hclear : flagFalse (elimInner p1 b p2) p2 v := hv ▸ elimInner_clears p1 b p2 h0
      exact flagFalse_mono (foldl_elimMono _ (elimInner_mono p1) l _) hclear
    · have hm := elimInner_mono p1 b a
      exact innerFold_clears p1 v l (elimInner p1 b a)
        (by rw [hm.1 p1]; exact hv) p2 hpl (by rw [hm.1 p2]; exact h0)

lemma outerFold_clears (g : List Pos) :
    ∀ (l : List Pos) (b : Board), ∀ p1 ∈ l, (b.cellAt p1).value ≠ 0 →
      ∀ p2 ∈ g, (b.cellAt p2).value = 0 →
        flagFalse (l.foldl (elimOuter g) b) p2 (b.cellAt p1).value
  | [], _, p1, hmem, _, _, _, _ => absurd hmem (List.not_mem_nil p1)
  | a :: l, b, p1, hmem, hv1, p2, hmem2, h02 => by
    rw [List.foldl_cons]
    rcases List.mem_cons.mp hmem with hpa | hpl
    · subst hpa
      have hclear : flagFalse (elimOuter g b p1) p2 (b.cellAt p1).value := by
        unfold elimOuter
        rw [if_pos hv1]
        exact innerFold_clears p1 _ g b rfl p2 hmem2 h02
      exact flagFalse_mono (foldl_elimMono _ (elimOuter_mono g) l _) hclear
    · have hm := elimOuter_mono g b a
      have hrec := outerFold_clears g l (elimOuter g b a) p1 hpl
        (by rw [hm.1 p1]; exact hv1) p2 hmem2 (by rw [hm.1 p2]; exact h02)
      rw [hm.1 p1] at hrec
      exact hrec

lemma elimPhase_clears :
    ∀ (gs : List (List Pos)) (b : Board), ∀ g ∈ gs, ∀ p1 ∈ g,
      (b.cellAt p1).value ≠ 0 → ∀ p2 ∈ g, (b.cellAt p2).value = 0 →
        flagFalse (elimPhase gs b) p2 (b.cellAt p1).value
  | [], _, g, hg, _, _, _, _, _, _ => absurd hg (List.not_mem_nil g)
  | gh :: gt, b, g, hg, p1, hp1, hv1, p2, hp2, h02 => by
    unfold elimPhase
    rw [List.foldl_cons]
    rcases List.mem_cons.mp hg with hgh | hgt
    · subst hgh
      have hstep : flagFalse (elimPhaseStep b g) p2 (b.cellAt p1).value := by
        unfold elimPhaseStep
        split
        · rename_i hsolved
          exact absurd h02 ((groupSolved_iff b g).mp hsolved p2 hp2)
        · exact outerFold_clears g g b p1 hp1 hv1 p2 hp2 h02
      exact flagFalse_mono (foldl_elimMono _ elimPhaseStep_mono gt _) hstep
    · have hm := elimPhaseStep_mono b gh
      have hrec := elimPhase_clears gt (elimPhaseStep b gh) g hgt p1 hp1
        (by rw [hm.1 p1]; exact hv1) p2 hp2 (by rw [hm.1 p2]; exact h02)
      rw [hm.1 p1] at hrec
      exact hrec

/-! ### The board `update` leaves exactly the post-elimination state -/

lemma nakedSinglePhase_fst (b : Board) : (nakedSinglePhase b).1 = b := by
  unfold nakedSinglePhase; split <;> rfl

lemma singularityPhase_solved (h : ∀ p : Pos, (b.cellAt p).value ≠ 0) :
    ∀ gs : List (List Pos), singularityPhase gs b = (b, none)
  | [] => rfl
  | g :: gt => by
    unfold singularityPhase at *
    rw [List.foldl_cons]
    have hs : b.groupSolved g = true := (groupSolved_iff b g).mpr fun p _ => h p
    have hstep : singPhaseStep (b, none) g = (b, none) := by
      simp only [singPhaseStep]
      rw [if_pos hs]
    rw [hstep]
    exact singularityPhase_solved h gt

/-- Every position belongs to its region's position list. -/
lemma mem_regionPositions_self (p : Pos) : p ∈ regionPositions p.1 := by
  unfold regionPositions
  exact List.mem_map.mpr ⟨p.2, List.mem_finRange _, rfl⟩

lemma allRegionsSolved_iff (b : Board) :
    ((List.finRange 9).all fun r => b.groupSolved (regionPositions r)) = true ↔
      ∀ p : Pos, (b.cellAt p).value ≠ 0 := by
  rw [List.all_eq_true]
  constructor
  · intro h p
    exact (groupSolved_iff b (regionPositions p.1)).mp
      (h p.1 (List.mem_finRange _)) p (mem_regionPositions_self p)
  · intro h r _
    exact (groupSolved_iff b (regionPositions r)).mpr fun p _ => h p

/-- Phases 4-7 either raise before touching a cell or skip every group, so
they leave the board state unchanged. -/
lemma latePhases_fst (b : Board) : (latePhases b).1 = b := by
  unfold latePhases
  by_cases hcond :
      ((List.finRange 9).all fun r => b.groupSolved (regionPositions r)) = true
  · have h1 : nakedSinglePhase b = (b, none) := by
      unfold nakedSinglePhase; rw [if_pos hcond]
    have h2 : regionSingularityPhase b = (b, none) := by
      unfold regionSingularityPhase; rw [if_pos hcond]
    have hall := (allRegionsSolved_iff b).mp hcond
    have h3 := singularityPhase_solved hall rowGroups
    have h4 := singularityPhase_solved hall colGroups
    simp only [h1, h2, h3, h4]
  · have h1 : nakedSinglePhase b = (b, some .attributeError) := by
      unfold nakedSinglePhase; rw [if_neg hcond]
    simp only [h1]

/-- The board state in which `update` terminates (normally or by raising) is
exactly the state after the three elimination passes. -/
lemma update_fst (b : Board) :
    (Board.update b).1 =
      elimPhase colGroups (elimPhase rowGroups (elimPhase regionGroups b)) := by
  unfold Board.update
  rw [latePhases_fst]

/-- `update` never changes a value, only clears candidate flags, and leaves
resolved cells untouched. -/
lemma update_elimMono (b : Board) : ElimMono b (Board.update b).1 := by
  rw [update_fst]
  exact ((elimPhase_mono regionGroups b).trans
    (elimPhase_mono rowGroups _)).trans (elimPhase_mono colGroups _)

/-! ### The resolved/singleton invariant (for reachable boards) -/

lemma inv_init : Inv Board.init := fun _ h => absurd rfl h

lemma setValue_cases (c : Cell) (v : Nat) :
    (1 < v ∧ v ≤ 9 ∧ c.setValue v = (resolvedCell v, none)) ∨
    (¬(1 < v ∧ v ≤ 9) ∧ c.setValue v = (c, some .valueError)) := by
  unfold Cell.setValue
  split
  · rename_i h; exact .inl ⟨h.1, h.2, rfl⟩
  · rename_i h; exact .inr ⟨h, rfl⟩

lemma inv_trySetValue {b : Board} (p : Pos) (v : Nat) (h : Inv b) :
    Inv (trySetValue b p v).1 := by
  unfold trySetValue
  rcases setValue_cases (b.cellAt p) v with ⟨h1, h2, heq⟩ | ⟨_, heq⟩
  · simp only [heq]
    intro q hq
    rw [cellAt_setCellAt] at hq ⊢
    by_cases hqp : q = p
    · rw [if_pos hqp] at hq ⊢
      exact ⟨rfl, h1, h2⟩
    · rw [if_neg hqp] at hq ⊢
      exact h q hq
  · simp only [heq]
    exact h

lemma inv_elimMono {b b' : Board} (h : ElimMono b b') (hi : Inv b) : Inv b' := by
  intro p hp
  have hv := h.1 p
  have hb : (b.cellAt p).value ≠ 0 := by rw [← hv]; exact hp
  have hcell := h.2.2 p hb
  rw [hcell]
  exact hi p hb

lemma reachable_inv {b : Board} (h : Reachable b) : Inv b := by
  induction h with
  | init => exact inv_init
  | clue p v _ ih => exact inv_trySetValue p v ih
  | step _ ih => exact inv_elimMono (update_elimMono _) ih
  | undo _ ih => exact ih

lemma candidatesList_resolvedCell (v : Nat) (h1 : 1 < v) (h2 : v ≤ 9) :
    (resolvedCell v).candidatesList = [v] := by
  interval_cases v <;> decide

/-! ### Claim theorems -/

/-- C1: on a freshly constructed board with no clues, one `update()` call
leaves every cell unchanged and `is_solved()` stays false — but contrary to
the claim it does not run to completion: it raises `AttributeError` in the
naked-single pass, because iterating a `_Region` yields `None` at index 0. -/
theorem C1_empty_board_step :
    Board.init.update = (Board.init, some Err.attributeError) ∧
    Board.init.isSolved = false := by
  constructor <;> decide

/-- C2: the `_Cell.value` setter succeeds exactly for `1 < v <= 9` —
collapsing the candidate set to the singleton `{v}` — and raises
`ValueError` otherwise; contrary to the claim, the digit 1 is rejected
(the guard is `1 < value <= 9`, not `1 <= value <= 9`), although the
raised message promises "between 1-9 (inclusive)". -/
theorem C2_resolve_range :
    (∀ (c : Cell) (v : Nat), (c.setValue v).2 = none ↔ 1 < v ∧ v ≤ 9) ∧
    (∀ (c : Cell) (v : Nat),
      (c.setValue v).1 = if 1 < v ∧ v ≤ 9 then resolvedCell v else c) ∧
    (∀ (c : Cell) (v : Nat),
      (c.setValue v).1.candidatesList =
        if 1 < v ∧ v ≤ 9 then [v] else c.candidatesList) ∧
    Cell.init.setValue 1 = (Cell.init, some Err.valueError) := by
  have hfst : ∀ (c : Cell) (v : Nat),
      (c.setValue v).1 = if 1 < v ∧ v ≤ 9 then resolvedCell v else c := by
    intro c v
    unfold Cell.setValue
    split
    · rfl
    · rfl
  refine ⟨fun c v => ?_, hfst, fun c v => ?_, by decide⟩
  · unfold Cell.setValue
    split
    · rename_i h; simpa using h
    · rename_i h; simpa using h
  · rw [hfst c v]
    by_cases h : 1 < v ∧ v ≤ 9
    · rw [if_pos h, if_pos h]
      exact candidatesList_resolvedCell v h.1 h.2
    · rw [if_neg h, if_neg h]

/-- C3 counterexample: after one `update()` call on a board with a single
clue 5, `undo()` does not restore cell `(0,1)` to its pre-step state (the
step eliminated candidate 5 from it, and `undo` is a no-op `pass`). -/
theorem C3_undo_unrestored_cex :
    (Board.update oneClueBoard).1.undo.cellAt (0, 1) ≠
      oneClueBoard.cellAt (0, 1) := by
  decide

/-- C3 amended: `undo()` is an unimplemented stub (`pass`); it never
modifies any cell, so the board keeps whatever state a `step()` left it in
rather than being rolled back. -/
theorem C3_undo_noop (b : Board) : b.undo = b := rfl

/-- C4 counterexample: in the singularity pass, self-exclusion uses
`_Cell.__eq__`, i.e. candidate-tuple equality.  On a row whose two distinct
unresolved cells `(0,0)` and `(0,1)` carry the identical candidate set
{4,5}, cell `(0,1)` is skipped by the `cell1 != cell2` scan, so it does NOT
prevent the resolution: the pass resolves `(0,0)` to 4 anyway. -/
theorem C4_identity_cex :
    ((0, 0) : Pos) ≠ (0, 1) ∧
    (cexBoard.cellAt (0, 0)).value = 0 ∧
    (cexBoard.cellAt (0, 1)).value = 0 ∧
    (cexBoard.cellAt (0, 0)).pyEq (cexBoard.cellAt (0, 1)) = true ∧
    otruthy ((cexBoard.cellAt (0, 1)).getItem 4) = true ∧
    ((0, 0) : Pos) ∈ rowPositions 0 ∧ ((0, 1) : Pos) ∈ rowPositions 0 ∧
    ((singGroup (rowPositions 0) cexBoard).1.cellAt (0, 0)).value = 4 := by
  decide

/-- C4 amended: the singularity scan excludes cells by candidate-set
equality (`_Cell.__eq__`), not by positional identity: whenever every
unresolved holder of the candidate in the group has a candidate tuple equal
to that of the cell under consideration, the scan finds no blocking cell
and the singularity fires. -/
theorem C4_candidate_set_exclusion (b : Board) (g : List Pos) (p1 : Pos)
    (cand : Nat)
    (h : ∀ p2 ∈ g, (b.cellAt p2).value = 0 →
      otruthy ((b.cellAt p2).getItem (cand : Int)) = true →
      (b.cellAt p1).pyEq (b.cellAt p2) = true) :
    singularityHolds b g p1 cand = true := by
  unfold singularityHolds
  rw [Bool.not_eq_true']
  rw [List.any_eq_false]
  intro p2 hp2
  by_cases h0 : (b.cellAt p2).value = 0
  · by_cases hc : otruthy ((b.cellAt p2).getItem (cand : Int)) = true
    · have hpe := h p2 hp2 h0 hc
      simp [hpe]
    · simp [Bool.eq_false_iff.mpr hc]
  · simp [h0]

/-- C4 witness: on the counterexample row every unresolved holder of 4 has
the same candidate tuple as cell `(0,0)`, and indeed the scan reports a
singularity for 4 at `(0,0)`. -/
theorem C4_candidate_set_exclusion_witness :
    (∀ p2 ∈ rowPositions 0, (cexBoard.cellAt p2).value = 0 →
      otruthy ((cexBoard.cellAt p2).getItem ((4 : Nat) : Int)) = true →
      (cexBoard.cellAt (0, 0)).pyEq (cexBoard.cellAt p2) = true) ∧
    singularityHolds cexBoard (rowPositions 0) (0, 0) 4 = true :=
  ⟨by decide,
   C4_candidate_set_exclusion cexBoard (rowPositions 0) (0, 0) 4 (by decide)⟩

/-- C5: `validate()` (modelled from the spec, absent from this source file)
returns true exactly when the resolved values of every group (region, row,
column) are pairwise distinct — so it never reports success while a
duplicate exists — and on a board loaded with two identical clues 5 in
row 1, before any `step()`, it returns false. -/
theorem C5_validate_no_duplicates :
    (∀ b : Board, b.validate = true ↔
      ∀ g ∈ allGroups, (resolvedValues b g).Nodup) ∧
    ((twoClueBoard.cellAt (0, 0)).value = 5 ∧
      (twoClueBoard.cellAt (0, 1)).value = 5 ∧
      ((0, 0) : Pos) ∈ rowPositions 0 ∧ ((0, 1) : Pos) ∈ rowPositions 0) ∧
    twoClueBoard.validate = false := by
  refine ⟨fun b => ?_, by decide, by decide⟩
  simp only [Board.validate, List.all_eq_true, decide_eq_true_eq]

/-- C6: in the state `update()` leaves behind, for every group and every
resolved cell of that group, the resolved value's candidate flag is off in
every other unresolved cell of the group, and cells that were resolved
before the call are bit-for-bit unchanged. -/
theorem C6_elimination_establishes (b : Board) :
    (∀ g ∈ allGroups, ∀ p1 ∈ g, ∀ p2 ∈ g,
      ((Board.update b).1.cellAt p1).value ≠ 0 →
      ((Board.update b).1.cellAt p2).value = 0 →
      otruthy (((Board.update b).1.cellAt p2).getItem
        ((((Board.update b).1.cellAt p1).value : Nat) : Int)) = false) ∧
    ∀ p : Pos, (b.cellAt p).value ≠ 0 →
      (Board.update b).1.cellAt p = b.cellAt p := by
  have m01 : ElimMono b (elimPhase regionGroups b) := elimPhase_mono _ _
  have m12 : ElimMono (elimPhase regionGroups b)
      (elimPhase rowGroups (elimPhase regionGroups b)) := elimPhase_mono _ _
  have m23 : ElimMono (elimPhase rowGroups (elimPhase regionGroups b))
      (elimPhase colGroups (elimPhase rowGroups (elimPhase regionGroups b))) :=
    elimPhase_mono _ _
  have m03 := (m01.trans m12).trans m23
  constructor
  · intro g hg p1 hp1 p2 hp2 hv1 h02
    rw [update_fst] at hv1 h02 ⊢
    unfold allGroups at hg
    rcases List.mem_append.mp hg with hg2 | hgCol
    · rcases List.mem_append.mp hg2 with hgR | hgRow
      · rw [m03.1 p1] at hv1
        rw [m03.1 p2] at h02
        have hclear := elimPhase_clears regionGroups b g hgR p1 hp1 hv1 p2 hp2 h02
        have hfinal := flagFalse_mono (m12.trans m23) hclear
        rw [m03.1 p1]
        exact hfinal
      · rw [(m12.trans m23).1 p1] at hv1
        rw [(m12.trans m23).1 p2] at h02
        have hclear := elimPhase_clears rowGroups (elimPhase regionGroups b) g
          hgRow p1 hp1 hv1 p2 hp2 h02
        have hfinal := flagFalse_mono m23 hclear
        rw [(m12.trans m23).1 p1]
        exact hfinal
    · rw [m23.1 p1] at hv1
      rw [m23.1 p2] at h02
      have hclear := elimPhase_clears colGroups
        (elimPhase rowGroups (elimPhase regionGroups b)) g hgCol p1 hp1 hv1
        p2 hp2 h02
      rw [m23.1 p1]
      exact hclear
  · intro p hp
    rw [update_fst]
    exact m03.2.2 p hp

/-- C6 witness: on the board with a single clue 5 at `(0,0)`, after one
`update()` the resolved 5 has been eliminated from the unresolved peer
`(0,1)` of row 1. -/
theorem C6_elimination_establishes_witness :
    (rowPositions 0 ∈ allGroups ∧
      ((0, 0) : Pos) ∈ rowPositions 0 ∧ ((0, 1) : Pos) ∈ rowPositions 0 ∧
      ((Board.update oneClueBoard).1.cellAt (0, 0)).value ≠ 0 ∧
      ((Board.update oneClueBoard).1.cellAt (0, 1)).value = 0) ∧
    otruthy (((Board.update oneClueBoard).1.cellAt (0, 1)).getItem
      ((((Board.update oneClueBoard).1.cellAt (0, 0)).value : Nat) : Int)) =
      false :=
  ⟨⟨by decide, by decide, by decide, by decide, by decide⟩,
   (C6_elimination_establishes oneClueBoard).1 (rowPositions 0) (by decide)
     (0, 0) (by decide) (0, 1) (by decide) (by decide) (by decide)⟩

/-- C7: there are exactly 81 cell positions; each of the three view tables
built at construction (regions, rows, columns) lists every position exactly
once; the cell shared by row `i` and column `j` (entry `j` of row `i`,
which equals entry `i` of column `j`) lies in the region `3*(i/3) + j/3`;
and the views alias the one cell store: writing a cell at `p` is read back
through any view entry equal to `p` and changes no other entry. -/
theorem C7_views_partition :
    Fintype.card Pos = 81 ∧
    (∀ p : Pos, regionGroups.flatten.count p = 1 ∧ rowGroups.flatten.count p = 1 ∧
      colGroups.flatten.count p = 1) ∧
    (∀ i j : Fin 9,
      (rowPositions i).getD j.val (0, 0) = (colPositions j).getD i.val (0, 0)) ∧
    (∀ i j : Fin 9,
      ((rowPositions i).getD j.val (0, 0)).1.val = 3 * (i.val / 3) + j.val / 3) ∧
    (∀ (b : Board) (p : Pos) (c : Cell) (q : Pos),
      (b.setCellAt p c).cellAt q = if q = p then c else b.cellAt q) :=
  ⟨by decide, by decide, by decide, by decide, cellAt_setCellAt⟩

/-- C8: `update()` is a function of the board state, so once a call produces
zero cell changes the board is at a fixed point and every further call
leaves it unchanged, for any number of iterations. -/
theorem C8_fixed_point (b : Board) (h : (Board.update b).1 = b) :
    ∀ n : Nat, updateIter n b = b := by
  intro n
  induction n with
  | zero => rfl
  | succ n ih =>
    show updateIter n (Board.update b).1 = b
    rw [h]
    exact ih

/-- C8 witness: the empty board is such a fixed point (the raising `update()`
changes no cell there), and three further calls change nothing. -/
theorem C8_fixed_point_witness :
    (Board.update Board.init).1 = Board.init ∧
    updateIter 3 Board.init = Board.init :=
  ⟨by decide, C8_fixed_point Board.init (by decide) 3⟩

/-- C9: on every board reachable by construction, clue loading, `update()`
and `undo()`, a solved cell's candidate list is exactly the singleton
containing its value. -/
theorem C9_resolved_singleton (b : Board) (h : Reachable b) (p : Pos)
    (hs : (b.cellAt p).isSolved = true) :
    (b.cellAt p).candidatesList = [(b.cellAt p).value] := by
  have hv : (b.cellAt p).value ≠ 0 := by simpa [Cell.isSolved] using hs
  obtain ⟨hcell, h1, h2⟩ := reachable_inv h p hv
  rw [hcell]
  exact candidatesList_resolvedCell _ h1 h2

/-- C9 witness: the board with the single loaded clue 5 is reachable and its
resolved cell's candidate list is exactly [5]. -/
theorem C9_resolved_singleton_witness :
    (oneClueBoard.cellAt (0, 0)).isSolved = true ∧
    (oneClueBoard.cellAt (0, 0)).candidatesList =
      [(oneClueBoard.cellAt (0, 0)).value] :=
  ⟨by decide,
   C9_resolved_singleton oneClueBoard
     (Reachable.clue (0, 0) 5 Reachable.init) (0, 0) (by decide)⟩

/-- C10: `_Cell.__getitem__` and `Board.__getitem__` are total and silent on
any integer index outside 1..9, returning `None` instead of raising, and on
an index inside 1..9 they return the stored candidate flag / the stored
region. -/
theorem C10_getitem_total (c : Cell) (b : Board) (i : Int) :
    ((i < 1 ∨ 9 < i) → c.getItem i = none ∧ b.getItem i = none) ∧
    ∀ h : 1 ≤ i ∧ i ≤ 9,
      c.getItem i = some (c.cands ⟨i.toNat - 1, by omega⟩) ∧
      b.getItem i = some fun j => b.cells (⟨i.toNat - 1, by omega⟩, j) := by
  constructor
  · intro hout
    have hn : ¬(0 < i ∧ i ≤ 9) := by omega
    exact ⟨by unfold Cell.getItem; exact dif_neg hn,
           by unfold Board.getItem; exact dif_neg hn⟩
  · intro h
    have hp : 0 < i ∧ i ≤ 9 := by omega
    constructor
    · unfold Cell.getItem; rw [dif_pos hp]
    · unfold Board.getItem; rw [dif_pos hp]

/-- C10 witness: at indices -3 and 10 both lookups return `None`; at index 5
the cell lookup returns the stored flag (open on a fresh cell). -/
theorem C10_getitem_total_witness :
    (Cell.init.getItem (-3) = none ∧ Board.init.getItem (-3) = none) ∧
    (Cell.init.getItem 10 = none ∧ Board.init.getItem 10 = none) ∧
    Cell.init.getItem 5 = some true := by
  refine ⟨(C10_getitem_total Cell.init Board.init (-3)).1 (by decide),
          (C10_getitem_total Cell.init Board.init 10).1 (by decide), ?_⟩
  have h := ((C10_getitem_total Cell.init Board.init 5).2 ⟨by decide, by decide⟩).1
  rw [h]
  rfl
